import Mathlib

/-!
# Verification of the verctrl file-detection and backup-rotation core

Shallow embedding of `src/verctrl.py`: the gitignore-style pattern matcher
(`fnmatch`/`pathlib.glob` semantics), the `SmartFileDetector` exclusion and
strategy logic, and the `VerCtrl` backup naming, rotation, backup and restore
operations.  Filesystem state is modelled explicitly (lists of names,
association lists for file contents); `sys.exit` and exceptions are modelled
with `Except`/`Option`.
-/

/-! ## fnmatch / glob pattern matching

Model of Python's `fnmatch.fnmatch` (which also underlies `pathlib.glob` for a
single path component, as used by `backup_dir.glob(...)` in the source): `*`
matches any run of characters, `?` one character, `[seq]` a character class
with optional leading `!` negation and `a-b` ranges; an unmatched `[` is a
literal.  No case normalisation (POSIX). -/

/-- Split a character list at the first `]`, returning the parts before and
after it; `none` when there is no `]`. -/
def breakAtRB : List Char → Option (List Char × List Char)
  | [] => none
  | c :: rest =>
    if c = ']' then some ([], rest)
    else (breakAtRB rest).map (fun pr => (c :: pr.1, pr.2))

/-- The body of a character class: the members up to the closing `]` and the
remaining pattern.  Per `fnmatch.translate`, a `]` in first position is a
literal member; `none` when the `[` is unmatched. -/
def classBody : List Char → Option (List Char × List Char)
  | [] => none
  | c :: rest =>
    if c = ']' then (breakAtRB rest).map (fun pr => (']' :: pr.1, pr.2))
    else (breakAtRB (c :: rest)).map (fun pr => pr)

/-- Parse a character class (the characters after `[`), per
`fnmatch.translate`: optional leading `!` negates; returns
`(negated, members, rest-of-pattern)`, or `none` for an unmatched `[`. -/
def parseClass : List Char → Option (Bool × List Char × List Char)
  | [] => none
  | c :: rest =>
    if c = '!' then (classBody rest).map (fun pr => (true, pr.1, pr.2))
    else (classBody (c :: rest)).map (fun pr => (false, pr.1, pr.2))

/-- Whether a character is matched by the member list of a character class;
`a-b` denotes a range, a trailing `-` is a literal. -/
def classMem : List Char → Char → Bool
  | a :: '-' :: b :: rest, c => (a ≤ c && c ≤ b) || classMem rest c
  | a :: rest, c => (a == c) || classMem rest c
  | [], _ => false

/-- A compiled glob-pattern token. -/
inductive GTok where
  | lit (c : Char)
  | star
  | anychar
  | cls (neg : Bool) (mem : List Char)
  deriving DecidableEq

/-- Compile a glob pattern into tokens, following `fnmatch.translate`.
Fuel-based so that the kernel can evaluate it; every recursive call strictly
decreases the pattern length (for the class case by `parseClass_length`), so
fuel `cs.length + 1` as supplied by `compilePattern` is never exhausted. -/
def compileF : Nat → List Char → List GTok
  | 0, _ => []
  | _ + 1, [] => []
  | f + 1, c :: ps =>
    if c = '*' then .star :: compileF f ps
    else if c = '?' then .anychar :: compileF f ps
    else if c = '[' then
      match parseClass ps with
      | some (neg, mem, rest) => .cls neg mem :: compileF f rest
      | none => .lit '[' :: compileF f ps
    else .lit c :: compileF f ps

/-- Compile a glob pattern into tokens. -/
def compilePattern (cs : List Char) : List GTok :=
  compileF (cs.length + 1) cs

/-- Match a compiled glob pattern against a character list (full match, as
`fnmatch` anchors the translated regex with `\Z`).  Fuel-based; every
recursive call strictly decreases `ts.length + s.length`, so the fuel
supplied by `tokMatch` is never exhausted. -/
def tokMatchF : Nat → List GTok → List Char → Bool
  | 0, _, _ => false
  | _ + 1, [], s => s.isEmpty
  | f + 1, .star :: ts, [] => tokMatchF f ts []
  | f + 1, .star :: ts, c :: s => tokMatchF f ts (c :: s) || tokMatchF f (.star :: ts) s
  | _ + 1, .anychar :: _, [] => false
  | f + 1, .anychar :: ts, _ :: s => tokMatchF f ts s
  | _ + 1, .cls _ _ :: _, [] => false
  | f + 1, .cls neg mem :: ts, c :: s => (classMem mem c != neg) && tokMatchF f ts s
  | _ + 1, .lit _ :: _, [] => false
  | f + 1, .lit p :: ts, c :: s => (p == c) && tokMatchF f ts s

/-- Match a compiled glob pattern against a character list. -/
def tokMatch (ts : List GTok) (s : List Char) : Bool :=
  tokMatchF (ts.length + s.length + 1) ts s

/-- Python `fnmatch.fnmatch(name, pat)` on a POSIX system. -/
def fnmatch (name pat : String) : Bool :=
  tokMatch (compilePattern pat.data) name.data

/-- `fnmatch` on character lists (the form used internally; string library
functions are avoided so that the kernel can evaluate everything). -/
def fnmatchL (name pat : List Char) : Bool :=
  tokMatch (compilePattern pat) name

/-! ## Path name stem and suffix

Model of `pathlib.PurePath.stem` / `.suffix`: the (last) suffix of the final
path component; the dot must be neither the first nor the last character of
the component. -/

/-- Split a character list at `/` separators. -/
def splitSlash : List Char → List (List Char)
  | [] => [[]]
  | c :: rest =>
    if c = '/' then [] :: splitSlash rest
    else
      match splitSlash rest with
      | h :: t => (c :: h) :: t
      | [] => [[c]]

/-- The final path component of a relative path (`PurePath.name`). -/
def baseNameL (cs : List Char) : List Char :=
  (splitSlash cs).getLast?.getD cs

/-- Index of the last `.` in a character list, if any (Python `str.rfind`). -/
def rfindDotIdx : List Char → Option Nat
  | [] => none
  | c :: rest =>
    match rfindDotIdx rest with
    | some i => some (i + 1)
    | none => if c = '.' then some 0 else none

/-- `PurePath.suffix` on the character list of a path. -/
def suffixL (cs : List Char) : List Char :=
  let n := baseNameL cs
  match rfindDotIdx n with
  | some i => if 0 < i ∧ i < n.length - 1 then n.drop i else []
  | none => []

/-- `PurePath.stem` on the character list of a path. -/
def stemL (cs : List Char) : List Char :=
  let n := baseNameL cs
  match rfindDotIdx n with
  | some i => if 0 < i ∧ i < n.length - 1 then n.take i else n
  | none => n

/-- `PurePath.suffix`: extension of the final component, with the dot. -/
def pathSuffix (s : String) : String := ⟨suffixL s.data⟩

/-- `PurePath.stem`: final component without its suffix. -/
def pathStem (s : String) : String := ⟨stemL s.data⟩

/-! ## GitignoreParser

`GitignoreParser.is_ignored(path, root)` checks the path relative to `root`
against each loaded pattern: `!`-prefixed patterns are skipped; a pattern
ending in `/` matches directories whose relative path plus `/` matches it;
otherwise the full relative path, the bare name, and every individual path
segment are tried.  A path is modelled by its component list relative to the
root plus an `isDir` flag; `none` stands for a path not under the root
(Python `relative_to` raises `ValueError` and the method returns `False`). -/

/-- Join path components with `/` (the relative path string). -/
def joinSlash : List (List Char) → List Char
  | [] => []
  | [x] => x
  | x :: xs => x ++ '/' :: joinSlash xs

/-- Does the string start with `!` (negation patterns, parsed but skipped)? -/
def startsWithBang (s : String) : Bool :=
  match s.data with
  | '!' :: _ => true
  | _ => false

/-- Decision for a single gitignore pattern (one iteration of the loop in
`is_ignored`); `false` for `!`-prefixed patterns, which are skipped. -/
def gitignoreHit (parts : List String) (isDir : Bool) (pat : String) : Bool :=
  if startsWithBang pat then false
  else
    let patCs := pat.data
    let relPath := joinSlash (parts.map String.data)
    if patCs.getLast? = some '/' then
      isDir && fnmatchL (relPath ++ ['/']) patCs
    else
      fnmatchL relPath patCs || fnmatchL ((parts.getLast?.getD "").data) patCs ||
        parts.any (fun seg => fnmatchL seg.data patCs)

/-- `GitignoreParser.is_ignored` for a path given by its components relative
to the root. -/
def is_ignored (patterns : List String) (parts : List String) (isDir : Bool) : Bool :=
  patterns.any (gitignoreHit parts isDir)

/-- `is_ignored` including the not-under-root case (`relative_to` raises
`ValueError`, the method returns `False`). -/
def is_ignored_at (patterns : List String) : Option (List String × Bool) → Bool
  | none => false
  | some (parts, isDir) => is_ignored patterns parts isDir

/-! ## SmartFileDetector

Constant tables and the exclusion / strategy logic of `SmartFileDetector`.
A discovered file is modelled by its path components relative to the root
(`rglob` enumeration), its age in days and whether `stat` succeeded (for the
`recent` strategy; unreadable metadata means infinite age, i.e. excluded). -/

/-- `SmartFileDetector.DEFAULT_EXCLUDES`. -/
def DEFAULT_EXCLUDES : List String :=
  [".git", ".svn", ".hg", ".bzr",
   "node_modules", "bower_components", "vendor",
   "__pycache__", "*.pyc", "*.pyo", "*.pyd", ".Python",
   "venv", ".venv", "env", ".env", "ENV",
   "*.egg-info", "dist", "build", ".pytest_cache",
   ".idea", ".vscode", ".vs", "*.swp", "*.swo", "*~",
   ".DS_Store", "Thumbs.db", "desktop.ini",
   "*.o", "*.so", "*.dylib", "*.dll", "*.exe",
   "*.log", "logs",
   ".verctrl_backups", "*.bak", "*.backup", "*.old",
   "tmp", "temp", ".tmp", ".cache"]

/-- `SmartFileDetector.SOURCE_EXTENSIONS`. -/
def SOURCE_EXTENSIONS : List String :=
  [".py", ".js", ".ts", ".jsx", ".tsx", ".java", ".c", ".cpp", ".h", ".hpp",
   ".cs", ".go", ".rs", ".rb", ".php", ".swift", ".kt", ".scala",
   ".html", ".css", ".scss", ".sass", ".less", ".vue", ".svelte",
   ".json", ".yaml", ".yml", ".toml", ".ini", ".conf", ".config",
   ".md", ".rst", ".txt", ".adoc",
   ".sh", ".bash", ".zsh", ".fish", ".ps1", ".bat", ".cmd",
   ".sql", ".graphql", ".proto"]

/-- `SmartFileDetector.BINARY_EXTENSIONS`. -/
def BINARY_EXTENSIONS : List String :=
  [".jpg", ".jpeg", ".png", ".gif", ".bmp", ".ico", ".svg",
   ".mp4", ".avi", ".mov", ".wmv", ".flv",
   ".mp3", ".wav", ".ogg", ".flac",
   ".zip", ".tar", ".gz", ".rar", ".7z",
   ".pdf", ".doc", ".docx", ".xls", ".xlsx", ".ppt", ".pptx"]

/-- The web-extension set of the `web` strategy. -/
def WEB_EXTS : List String :=
  [".html", ".css", ".js", ".ts", ".jsx", ".tsx", ".vue", ".svelte"]

/-- Does the string start with `*` (glob patterns in `DEFAULT_EXCLUDES`)? -/
def startsWithStar (s : String) : Bool :=
  match s.data with
  | '*' :: _ => true
  | _ => false

/-- Does the string start with `.`? -/
def startsWithDot (s : String) : Bool :=
  match s.data with
  | '.' :: _ => true
  | _ => false

/-- Lower-casing on character lists (`str.lower` for ASCII extensions). -/
def lowerL (cs : List Char) : List Char := cs.map Char.toLower

/-- A file discovered by `rglob`, as seen by `detect_files`: its path
components relative to the root, its age in days, and whether `stat`
succeeded. -/
structure FsFile where
  parts : List String
  ageDays : Nat
  statOk : Bool
  deriving DecidableEq

/-- `SmartFileDetector.should_exclude_dir` for a directory given by its
components relative to the root: a non-glob default exclude equal to the
directory's name, any name starting with `.`, or a gitignore hit. -/
def should_exclude_dir (git : List String) (parts : List String) : Bool :=
  let dirName := parts.getLast?.getD ""
  DEFAULT_EXCLUDES.any
      (fun p => !startsWithStar p && (dirName == p || startsWithDot dirName)) ||
    is_ignored git parts true

/-- `SmartFileDetector.should_exclude_file`: a glob default exclude matching
the bare name, a gitignore hit, or a binary/media extension. -/
def should_exclude_file (git : List String) (f : FsFile) : Bool :=
  let name := f.parts.getLast?.getD ""
  DEFAULT_EXCLUDES.any (fun p => startsWithStar p && fnmatchL name.data p.data) ||
    is_ignored git f.parts false ||
    BINARY_EXTENSIONS.contains ⟨lowerL (suffixL name.data)⟩

/-- `SmartFileDetector.is_source_file`. -/
def is_source_file (f : FsFile) : Bool :=
  SOURCE_EXTENSIONS.contains ⟨lowerL (suffixL (f.parts.getLast?.getD "").data)⟩

/-- The ancestor walk in `detect_files`: some strict ancestor of the file
below the root is an excluded directory. -/
def ancestorExcluded (git : List String) (parts : List String) : Bool :=
  (List.range (parts.length - 1)).any
    (fun j => should_exclude_dir git (parts.take (j + 1)))

/-- The strategy filter of `detect_files` (the if/elif chain); an unknown
strategy keeps nothing. -/
def strategyKeep (strategy : String) (maxAgeDays : Nat) (f : FsFile) : Bool :=
  if strategy == "smart" then is_source_file f
  else if strategy == "source" then is_source_file f
  else if strategy == "recent" then f.statOk && f.ageDays ≤ maxAgeDays
  else if strategy == "python" then pathSuffix (f.parts.getLast?.getD "") == ".py"
  else if strategy == "web" then
    WEB_EXTS.contains ⟨lowerL (suffixL (f.parts.getLast?.getD "").data)⟩
  else if strategy == "all" then true
  else false

/-- Lexicographic comparison of character lists (Python string `<=`). -/
def charListLe : List Char → List Char → Bool
  | [], _ => true
  | _ :: _, [] => false
  | a :: as, b :: bs => if a = b then charListLe as bs else decide (a < b)

/-- Insert into a list ordered by a boolean comparison. -/
def insertLe {α : Type} (le : α → α → Bool) (x : α) : List α → List α
  | [] => [x]
  | y :: ys => if le x y then x :: y :: ys else y :: insertLe le x ys

/-- Insertion sort with a boolean comparison (a stable sort, as Python's
`sorted`). -/
def sortLe {α : Type} (le : α → α → Bool) : List α → List α
  | [] => []
  | x :: xs => insertLe le x (sortLe le xs)

/-- Path order used by `sorted(detected)` (comparison of relative paths). -/
def pathLe (a b : FsFile) : Bool :=
  charListLe (joinSlash (a.parts.map String.data)) (joinSlash (b.parts.map String.data))

/-- `SmartFileDetector.detect_files`: drop excluded files, drop files with an
excluded strict ancestor below the root, apply the strategy filter, and
return the result sorted by path. -/
def detect_files (git : List String) (strategy : String) (maxAgeDays : Nat)
    (files : List FsFile) : List FsFile :=
  sortLe pathLe
    (files.filter
      (fun f =>
        !should_exclude_file git f && !ancestorExcluded git f.parts &&
          strategyKeep strategy maxAgeDays f))

/-! ## Backup naming (`VerCtrl.get_backup_name`)

Version scheme: glob the backup directory (a list of file names) for
`<stem>-v*<suffix>` (the stem and suffix are NOT glob-escaped in the source),
then match each hit against the regex `re.escape(stem)-v(\d+)re.escape(suffix)`
with `re.match` (anchored at the start only, `\d+` greedy with backtracking),
and use `max(versions, default=0) + 1`. -/

/-- Strip an exact (regex-escaped, hence literal) prefix. -/
def stripExact : List Char → List Char → Option (List Char)
  | [], s => some s
  | _ :: _, [] => none
  | p :: ps, c :: cs => if p = c then stripExact ps cs else none

/-- Match `(\d+)` followed by the literal suffix at the start of `cs`
(`re.match` semantics: greedy with backtracking, no end anchor).  `acc` is the
numeric value of the digits consumed so far, `consumed` whether at least one
digit was. -/
def vMatch (sfx : List Char) : List Char → Nat → Bool → Option Nat
  | [], acc, consumed => if consumed && sfx.isPrefixOf [] then some acc else none
  | c :: rest, acc, consumed =>
    if c.isDigit then
      match vMatch sfx rest (acc * 10 + (c.toNat - 48)) true with
      | some v => some v
      | none => if consumed && sfx.isPrefixOf (c :: rest) then some acc else none
    else if consumed && sfx.isPrefixOf (c :: rest) then some acc else none

/-- `pattern.match(backup.name)` for the version regex: the parsed version
number, or `none` when the name does not match. -/
def parseVersionName (stem suffix name : String) : Option Nat :=
  match stripExact stem.data name.data with
  | none => none
  | some r1 =>
    match stripExact ['-', 'v'] r1 with
    | none => none
    | some r2 => vMatch suffix.data r2 0 false

/-- The version numbers collected by the glob-and-regex loop of the version
scheme over the backup directory listing. -/
def versionsOf (stem suffix : String) (dir : List String) : List Nat :=
  (dir.filter
      (fun n => fnmatchL n.data (stem.data ++ ('-' :: 'v' :: '*' :: suffix.data)))).filterMap
    (parseVersionName stem suffix)

/-- `max(versions, default=0) + 1` (all parsed versions are non-negative). -/
def next_version (stem suffix : String) (dir : List String) : Nat :=
  (versionsOf stem suffix dir).foldl Nat.max 0 + 1

/-- The name computed by the version scheme. -/
def get_backup_name_version (stem suffix : String) (dir : List String) : String :=
  stem ++ "-v" ++ toString (next_version stem suffix dir) ++ suffix

/-- `VerCtrl.get_backup_name`: dispatch on the naming scheme; `none` models
`sys.exit(1)` on an unknown scheme.  `now` is the formatted current local
time used by the timestamp scheme. -/
def get_backup_name (scheme filepath now : String) (dir : List String) : Option String :=
  if scheme = "version" then
    some (get_backup_name_version (pathStem filepath) (pathSuffix filepath) dir)
  else if scheme = "timestamp" then
    some (pathStem filepath ++ "-" ++ now ++ pathSuffix filepath)
  else if scheme = "simple" then some (pathStem filepath ++ "-old" ++ pathSuffix filepath)
  else none

/-! ## `VerCtrl.create_backup`

Two views of the backup loop.

For C3 (truncation order): each tracked file is processed independently; the
per-file body copies the file (`shutil.copy2`, which may raise, e.g.
`PermissionError` — then the `except` arm is taken and the rest of the `try`
body, including the truncation, is skipped) and only afterwards, when
`create_new_file` is set, truncates the original with `write_text('')`.

For C4 (unknown scheme): the loop aborts via `sys.exit(1)` inside
`get_backup_name`; `SystemExit` does not derive from `Exception`, so the
per-file `except` handlers do not catch it. -/

/-- A tracked file as seen by one iteration of the backup loop: its content
(`none` when the file does not exist) and whether the copy raises. -/
structure TrackedFile where
  content : Option String
  copyFails : Bool
  deriving DecidableEq

/-- One iteration of the backup loop: returns the file's new content and the
content of the created artifact (`none` when no copy happened). -/
def backupStep (createNew : Bool) (f : TrackedFile) : Option String × Option String :=
  match f.content with
  | none => (none, none)
  | some c =>
    if f.copyFails then (some c, none)
    else ((if createNew then some "" else some c), some c)

/-- The backup loop over the tracked-file list (per-file results in order). -/
def create_backup_loop (createNew : Bool) : List TrackedFile → List (Option String × Option String)
  | [] => []
  | f :: fs => backupStep createNew f :: create_backup_loop createNew fs

/-- The backup run for C4: tracked files are given by name and an
existence flag; the backup directory is a list of artifact names.  Result:
`Except.error dir` models `sys.exit(1)` (with the directory contents at exit
time), `Except.ok (count, dir)` a normal completion. -/
def create_backup_run (scheme now : String) :
    List (String × Bool) → List String → Except (List String) (Nat × List String)
  | [], dir => .ok (0, dir)
  | (name, existsOnDisk) :: rest, dir =>
    if existsOnDisk then
      match get_backup_name scheme name now dir with
      | none => .error dir
      | some b =>
        match create_backup_run scheme now rest (dir ++ [b]) with
        | .ok (c, d) => .ok (c + 1, d)
        | .error d => .error d
    else create_backup_run scheme now rest dir

instance {ε α : Type} [DecidableEq ε] [DecidableEq α] : DecidableEq (Except ε α) :=
  fun x y =>
    match x, y with
    | .ok a, .ok b => decidable_of_iff (a = b) (by simp)
    | .error a, .error b => decidable_of_iff (a = b) (by simp)
    | .ok _, .error _ => isFalse (by simp)
    | .error _, .ok _ => isFalse (by simp)

/-! ## `VerCtrl.cleanup_old_backups`

Per tracked file: glob the backup directory for `<stem>-*<suffix>`, sort
descending by modification time, delete everything beyond position
`keep_history`; `keep_history ≤ 0` returns before any deletion.  An artifact
is a name plus its modification time. -/

/-- A backup artifact in the backup directory. -/
structure Artifact where
  name : String
  mtime : Nat
  deriving DecidableEq

/-- Sort key: descending by modification time (`reverse=True`). -/
def artGe (a b : Artifact) : Bool := decide (b.mtime ≤ a.mtime)

/-- The artifacts matching the scheme-agnostic glob `<stem>-*<suffix>`. -/
def cleanup_matching (stem suffix : String) (dir : List Artifact) : List Artifact :=
  dir.filter (fun a => fnmatchL a.name.data (stem.data ++ ('-' :: '*' :: suffix.data)))

/-- The matching artifacts sorted descending by modification time. -/
def cleanup_sorted (stem suffix : String) (dir : List Artifact) : List Artifact :=
  sortLe artGe (cleanup_matching stem suffix dir)

/-- The artifacts deleted by one iteration of `cleanup_old_backups`
(`backups[keep_history:]`); nothing when `keep_history ≤ 0`. -/
def cleanup_deleted (stem suffix : String) (keep : Int) (dir : List Artifact) :
    List Artifact :=
  if keep ≤ 0 then [] else (cleanup_sorted stem suffix dir).drop keep.toNat

/-- The artifacts that survive one iteration of `cleanup_old_backups`. -/
def cleanup_kept (stem suffix : String) (keep : Int) (dir : List Artifact) :
    List Artifact :=
  if keep ≤ 0 then cleanup_sorted stem suffix dir
  else (cleanup_sorted stem suffix dir).take keep.toNat

/-! ## `VerCtrl.restore_backup` and the backup/restore round trip

File contents are modelled by an association list from names to contents
(`shutil.copy2` reads the source and writes the destination).  Restore picks
as target the first tracked file whose stem occurs as a substring of the
artifact name (`tracked_path.stem in backup_name`); when no tracked file
matches, the operator is prompted for a path (modelled as `none`), and an
existing target requires confirmation (parameter `confirm`). -/

/-- Contiguous-substring test (Python `needle in haystack`). -/
def subStr (needle hay : List Char) : Bool :=
  hay.tails.any (fun t => needle.isPrefixOf t)

/-- A file store: names to contents, later entries shadowed by earlier. -/
def lookupStore (st : List (String × String)) (k : String) : Option String :=
  (st.find? (fun e => e.1 == k)).map (fun e => e.2)

/-- Write (create or overwrite) a file in a store. -/
def setStore (st : List (String × String)) (k v : String) : List (String × String) :=
  (k, v) :: st

/-- `shutil.copy2 src dst` from one store into another: `none` when the
source does not exist (the copy raises). -/
def copy2 (src dst : String) (srcStore dstStore : List (String × String)) :
    Option (List (String × String)) :=
  (lookupStore srcStore src).map (fun c => setStore dstStore dst c)

/-- The target-selection loop of `restore_backup`: the first tracked file
whose stem is a substring of the artifact name. -/
def restoreTarget : List String → String → Option String
  | [], _ => none
  | t :: ts, bname =>
    if subStr (stemL t.data) bname.data then some t else restoreTarget ts bname

/-- The specified reading of the selection rule, for comparison: first match
in configuration order of the substring test. -/
def restoreTargetSpec (files : List String) (bname : String) : Option String :=
  files.find? (fun t => subStr (stemL t.data) bname.data)

/-- `VerCtrl.restore_backup`: look up the artifact, select the target,
confirm an overwrite of an existing target, and copy the artifact's content
over the target.  `none` models every early return (artifact missing, no
target given at the prompt, confirmation declined). -/
def restore_backup_model (files : List String) (bname : String) (confirm : Bool)
    (backupStore workStore : List (String × String)) :
    Option (List (String × String)) :=
  match lookupStore backupStore bname with
  | none => none
  | some c =>
    match restoreTarget files bname with
    | none => none
    | some tgt =>
      if (lookupStore workStore tgt).isSome && !confirm then none
      else some (setStore workStore tgt c)

/-! ## Basic lemmas and evaluation checks -/

theorem breakAtRB_length : ∀ {cs pre post : List Char},
    breakAtRB cs = some (pre, post) → post.length < cs.length := by
  intro cs
  induction cs with
  | nil => intro pre post h; simp [breakAtRB] at h
  | cons c rest ih =>
    intro pre post h
    rw [breakAtRB] at h
    split at h
    · simp at h
      simp [← h.2]
    · cases hrec : breakAtRB rest with
      | none => rw [hrec] at h; simp at h
      | some pr =>
        rw [hrec] at h
        simp at h
        have := @ih pr.1 pr.2 (by rw [hrec])
        rw [← h.2]
        simp
        omega

theorem classBody_length {cs mem rest : List Char}
    (h : classBody cs = some (mem, rest)) : rest.length < cs.length := by
  cases cs with
  | nil => simp [classBody] at h
  | cons c t =>
    rw [classBody] at h
    split at h
    · cases hb : breakAtRB t with
      | none => rw [hb] at h; simp at h
      | some pr =>
        rw [hb] at h
        simp at h
        have := @breakAtRB_length t pr.1 pr.2 (by rw [hb])
        rw [← h.2]
        simp
        omega
    · cases hb : breakAtRB (c :: t) with
      | none => rw [hb] at h; simp at h
      | some pr =>
        rw [hb] at h
        simp at h
        have := @breakAtRB_length (c :: t) pr.1 pr.2 (by rw [hb])
        rw [h] at this
        exact this

theorem parseClass_length {cs : List Char} {b : Bool} {mem rest : List Char}
    (h : parseClass cs = some (b, mem, rest)) : rest.length < cs.length := by
  cases cs with
  | nil => simp [parseClass] at h
  | cons c t =>
    rw [parseClass] at h
    split at h
    · cases hb : classBody t with
      | none => rw [hb] at h; simp at h
      | some pr =>
        rw [hb] at h
        simp at h
        have := @classBody_length t pr.1 pr.2 (by rw [hb])
        rw [h.2] at this
        simp at this
        simp
        omega
    · cases hb : classBody (c :: t) with
      | none => rw [hb] at h; simp at h
      | some pr =>
        rw [hb] at h
        simp at h
        have := @classBody_length (c :: t) pr.1 pr.2 (by rw [hb])
        rw [h.2] at this
        simpa using this

example : fnmatch "note-v1.txt" "note-v*.txt" = true := by decide

example : fnmatch "note-v1.txt" "doc-*.txt" = false := by decide

example : fnmatch "a[0]-v1.txt" "a[0]-v*.txt" = false := by decide

example : fnmatch "a0-v1.txt" "a[0]-v*.txt" = true := by decide

example : fnmatch "x.pyc" "*.pyc" = true := by decide

example : fnmatch "backup~" "*~" = true := by decide

theorem fnmatch_eq_fnmatchL (name pat : String) :
    fnmatch name pat = fnmatchL name.data pat.data := rfl

example : pathStem "note.txt" = "note" := by decide

example : pathSuffix "note.txt" = ".txt" := by decide

example : pathStem "src/app.py" = "app" := by decide

example : pathSuffix "src/app.py" = ".py" := by decide

example : pathStem ".gitignore" = ".gitignore" := by decide

example : pathSuffix ".gitignore" = "" := by decide

example : pathSuffix "HEAD" = "" := by decide

example : pathStem "a.tar.gz" = "a.tar" := by decide

example : is_ignored ["*.log"] ["run.log"] false = true := by decide

example : is_ignored ["build/"] ["build"] true = true := by decide

example : is_ignored ["build/"] ["build"] false = false := by decide

example : is_ignored ["node_modules"] ["a", "node_modules", "x.js"] false = true := by decide

example : is_ignored ["!keep.txt"] ["keep.txt"] false = false := by decide

theorem mem_insertLe {α : Type} (le : α → α → Bool) (x a : α) :
    ∀ l : List α, a ∈ insertLe le x l ↔ a = x ∨ a ∈ l := by
  intro l
  induction l with
  | nil => simp [insertLe]
  | cons y ys ih =>
    rw [insertLe]
    split
    · simp
    · simp [ih]
      tauto

theorem mem_sortLe {α : Type} (le : α → α → Bool) (a : α) :
    ∀ l : List α, a ∈ sortLe le l ↔ a ∈ l := by
  intro l
  induction l with
  | nil => simp [sortLe]
  | cons x xs ih => rw [sortLe]; rw [mem_insertLe]; simp [ih]

example :
    detect_files [] "source" 30
      [⟨["src", "app.py"], 0, true⟩, ⟨["node_modules", "lib.js"], 0, true⟩,
       ⟨[".git", "HEAD"], 0, true⟩] = [⟨["src", "app.py"], 0, true⟩] := by decide

example : should_exclude_dir [] [".mydata"] = true := by decide

example : should_exclude_dir [] ["src"] = false := by decide

example : should_exclude_file [] ⟨["logo.png"], 0, true⟩ = true := by decide

example : parseVersionName "note" ".txt" "note-v12.txt" = some 12 := by decide

example : parseVersionName "note" ".txt" "note-vx.txt" = none := by decide

example : versionsOf "note" ".txt" ["note-v1.txt", "junk", "note-v2.txt"] = [1, 2] := by
  decide

example : get_backup_name_version "note" ".txt" ["note-v1.txt", "note-v2.txt"] =
    "note-v3.txt" := by decide

example : get_backup_name_version "a[0]" ".txt" ["a[0]-v1.txt"] = "a[0]-v1.txt" := by
  decide

example : get_backup_name "simple" "src/note.txt" "x" [] = some "note-old.txt" := by
  decide

example : get_backup_name "bogus" "note.txt" "x" [] = none := by decide

theorem length_create_backup_loop (createNew : Bool) :
    ∀ fs : List TrackedFile, (create_backup_loop createNew fs).length = fs.length := by
  intro fs
  induction fs with
  | nil => rfl
  | cons f fs ih => simp [create_backup_loop, ih]

example :
    create_backup_run "version" "x" [("note.txt", true), ("gone.txt", false)] [] =
      .ok (1, ["note-v1.txt"]) := by decide

example : create_backup_run "bogus" "x" [("note.txt", true)] ["old.bin"] =
    .error ["old.bin"] := by decide

example : create_backup_run "bogus" "x" [("note.txt", false)] [] = .ok (0, []) := by
  decide

example :
    cleanup_deleted "doc" ".txt" 2
      [⟨"doc-v4.txt", 400⟩, ⟨"doc-v1.txt", 100⟩, ⟨"doc-v3.txt", 300⟩,
       ⟨"doc-v2.txt", 200⟩] = [⟨"doc-v2.txt", 200⟩, ⟨"doc-v1.txt", 100⟩] := by decide

example :
    cleanup_deleted "doc" ".txt" 0 [⟨"doc-v4.txt", 400⟩, ⟨"doc-v1.txt", 100⟩] = [] := by
  decide

example : subStr "no".data "note-v1.txt".data = true := by decide

example : subStr "doc".data "note-v1.txt".data = false := by decide

example : restoreTarget ["no.txt", "note.txt"] "note-v1.txt" = some "no.txt" := by decide

example :
    restore_backup_model ["note.txt"] "note-v1.txt" true [("note-v1.txt", "hi")]
      [("note.txt", "bye")] = some [("note.txt", "hi"), ("note.txt", "bye")] := by decide

/-! ## Helper lemmas -/

theorem perm_insertLe {α : Type} (le : α → α → Bool) (x : α) :
    ∀ l : List α, (insertLe le x l).Perm (x :: l) := by
  intro l
  induction l with
  | nil => exact List.Perm.refl _
  | cons y ys ih =>
    rw [insertLe]
    split
    · exact List.Perm.refl _
    · exact (ih.cons y).trans (List.Perm.swap x y ys)

theorem perm_sortLe {α : Type} (le : α → α → Bool) :
    ∀ l : List α, (sortLe le l).Perm l := by
  intro l
  induction l with
  | nil => exact List.Perm.refl _
  | cons x xs ih =>
    rw [sortLe]
    exact (perm_insertLe le x (sortLe le xs)).trans (ih.cons x)

theorem pairwise_insertLe {α : Type} (le : α → α → Bool)
    (htot : ∀ a b, le a b = true ∨ le b a = true)
    (htrans : ∀ a b c, le a b = true → le b c = true → le a c = true) (x : α) :
    ∀ l : List α, List.Pairwise (fun a b => le a b = true) l →
      List.Pairwise (fun a b => le a b = true) (insertLe le x l) := by
  intro l
  induction l with
  | nil => intro _; simp [insertLe]
  | cons y ys ih =>
    intro h
    rw [insertLe]
    rcases List.pairwise_cons.mp h with ⟨hy, hys⟩
    split
    · rename_i hxy
      refine List.pairwise_cons.mpr ⟨?_, h⟩
      intro z hz
      rcases List.mem_cons.mp hz with rfl | hz'
      · exact hxy
      · exact htrans x y z hxy (hy z hz')
    · rename_i hxy
      have hyx : le y x = true := by
        rcases htot x y with h' | h'
        · exact absurd h' hxy
        · exact h'
      refine List.pairwise_cons.mpr ⟨?_, ih hys⟩
      intro z hz
      rcases (mem_insertLe le x z ys).mp hz with rfl | hz'
      · exact hyx
      · exact hy z hz'

theorem pairwise_sortLe {α : Type} (le : α → α → Bool)
    (htot : ∀ a b, le a b = true ∨ le b a = true)
    (htrans : ∀ a b c, le a b = true → le b c = true → le a c = true) :
    ∀ l : List α, List.Pairwise (fun a b => le a b = true) (sortLe le l) := by
  intro l
  induction l with
  | nil => simp [sortLe]
  | cons x xs ih => rw [sortLe]; exact pairwise_insertLe le htot htrans x _ ih

theorem pairwise_take_drop {α : Type} {R : α → α → Prop} {l : List α}
    (h : List.Pairwise R l) (k : Nat) :
    ∀ b ∈ l.take k, ∀ a ∈ l.drop k, R b a := by
  have h2 := h
  rw [← List.take_append_drop k l] at h2
  exact (List.pairwise_append.mp h2).2.2

theorem foldl_max_perm {l₁ l₂ : List Nat} (h : l₁.Perm l₂) :
    ∀ a : Nat, l₁.foldl Nat.max a = l₂.foldl Nat.max a := by
  induction h with
  | nil => intro a; rfl
  | cons x h ih => intro a; simp only [List.foldl_cons]; exact ih _
  | swap x y l =>
    intro a
    simp only [List.foldl_cons]
    have : Nat.max (Nat.max a y) x = Nat.max (Nat.max a x) y := by
      simp only [Nat.max_def]
      repeat' split
      all_goals omega
    rw [this]
  | trans h1 h2 ih1 ih2 => intro a; exact (ih1 a).trans (ih2 a)

theorem foldl_max_range' : ∀ N : Nat, (List.range' 1 N).foldl Nat.max 0 = N := by
  intro N
  induction N with
  | zero => rfl
  | succ n ih =>
    rw [List.range'_concat]
    rw [List.foldl_append]
    simp only [List.foldl_cons, List.foldl_nil]
    rw [ih]
    simp only [Nat.max_def]
    split <;> omega

/-! ## Claims -/

/-- Claim C1: version-scheme naming is monotonic.  Whenever the version
numbers the scan collects from the backup directory are exactly `1..N` (in
any enumeration order — the hypothesis is stated up to permutation, and the
second conjunct shows the computed name is invariant under re-enumeration of
the directory), the next computed name is `<stem>-v(N+1)<suffix>`; the case
`N = 0` (no versioned artifact) yields `<stem>-v1<suffix>`. -/
theorem c1_version_scheme_monotonic (stem suffix : String) (dir : List String) (N : Nat)
    (h : (versionsOf stem suffix dir).Perm (List.range' 1 N)) :
    get_backup_name_version stem suffix dir = stem ++ "-v" ++ toString (N + 1) ++ suffix ∧
    ∀ dir' : List String, dir.Perm dir' →
      get_backup_name_version stem suffix dir = get_backup_name_version stem suffix dir' := by
  constructor
  · unfold get_backup_name_version next_version
    rw [foldl_max_perm h 0, foldl_max_range']
  · intro dir' hp
    unfold get_backup_name_version next_version versionsOf
    rw [foldl_max_perm ((hp.filter _).filterMap _) 0]

/-- Witness for C1: the spec scenario `note-v1.txt`, `note-v2.txt` →
`note-v3.txt`. -/
theorem c1_witness :
    (versionsOf "note" ".txt" ["note-v2.txt", "note-v1.txt"]).Perm (List.range' 1 2) ∧
    get_backup_name_version "note" ".txt" ["note-v2.txt", "note-v1.txt"] =
      "note-v3.txt" := by
  refine ⟨by decide, ?_⟩
  have h :=
    (c1_version_scheme_monotonic "note" ".txt" ["note-v2.txt", "note-v1.txt"] 2
        (by decide)).1
  exact h.trans (by decide)

/-- Claim C2: rotation keeps the first `keepHistory` artifacts of the
mtime-descending ordering of the `<stem>-*<suffix>` family and deletes the
rest: it deletes nothing when `keepHistory ≤ 0`, deletes exactly
`max(0, count − keepHistory)` artifacts otherwise, deletes only family
members, and every deleted artifact is no newer than every kept one. -/
theorem c2_rotation_bounds (stem suffix : String) (keep : Int) (dir : List Artifact) :
    (keep ≤ 0 → cleanup_deleted stem suffix keep dir = []) ∧
    (0 < keep →
      (cleanup_deleted stem suffix keep dir).length =
        (cleanup_matching stem suffix dir).length - keep.toNat) ∧
    (∀ a, a ∈ cleanup_deleted stem suffix keep dir →
      a ∈ cleanup_matching stem suffix dir) ∧
    (∀ a b, a ∈ cleanup_deleted stem suffix keep dir →
      b ∈ cleanup_kept stem suffix keep dir → a.mtime ≤ b.mtime) := by
  have hperm : (cleanup_sorted stem suffix dir).Perm (cleanup_matching stem suffix dir) :=
    perm_sortLe artGe _
  have hsorted : List.Pairwise (fun a b => artGe a b = true) (cleanup_sorted stem suffix dir) :=
    pairwise_sortLe artGe
      (fun a b => by
        unfold artGe
        rcases Nat.le_total b.mtime a.mtime with h | h
        · left; simpa using h
        · right; simpa using h)
      (fun a b c h1 h2 => by
        unfold artGe at h1 h2 ⊢
        simp only [decide_eq_true_eq] at h1 h2 ⊢
        omega) _
  refine ⟨?_, ?_, ?_, ?_⟩
  · intro hk
    unfold cleanup_deleted
    rw [if_pos hk]
  · intro hk
    unfold cleanup_deleted
    rw [if_neg (by omega)]
    rw [List.length_drop]
    unfold cleanup_sorted
    rw [(perm_sortLe artGe _).length_eq]
  · intro a ha
    unfold cleanup_deleted at ha
    split at ha
    · simp at ha
    · exact hperm.mem_iff.mp (List.drop_subset _ _ ha)
  · intro a b ha hb
    unfold cleanup_deleted at ha
    split at ha
    · simp at ha
    · unfold cleanup_kept at hb
      rw [if_neg (by rename_i hk; exact hk)] at hb
      have := pairwise_take_drop hsorted keep.toNat b hb a ha
      unfold artGe at this
      simpa using this

/-- Witness for C2: the spec scenario `keepHistory = 2`, four artifacts
newest→oldest `doc-v4 … doc-v1`; the two oldest are deleted. -/
theorem c2_witness :
    ((0 : Int) < 2 ∧
      (cleanup_deleted "doc" ".txt" 2
            [⟨"doc-v4.txt", 400⟩, ⟨"doc-v1.txt", 100⟩, ⟨"doc-v3.txt", 300⟩,
             ⟨"doc-v2.txt", 200⟩]).length =
        (cleanup_matching "doc" ".txt"
              [⟨"doc-v4.txt", 400⟩, ⟨"doc-v1.txt", 100⟩, ⟨"doc-v3.txt", 300⟩,
               ⟨"doc-v2.txt", 200⟩]).length - (2 : Int).toNat) ∧
    cleanup_deleted "doc" ".txt" 2
        [⟨"doc-v4.txt", 400⟩, ⟨"doc-v1.txt", 100⟩, ⟨"doc-v3.txt", 300⟩,
         ⟨"doc-v2.txt", 200⟩] = [⟨"doc-v2.txt", 200⟩, ⟨"doc-v1.txt", 100⟩] := by
  refine ⟨⟨by decide, ?_⟩, by decide⟩
  exact (c2_rotation_bounds "doc" ".txt" 2
      [⟨"doc-v4.txt", 400⟩, ⟨"doc-v1.txt", 100⟩, ⟨"doc-v3.txt", 300⟩,
       ⟨"doc-v2.txt", 200⟩]).2.1 (by decide)

theorem create_backup_loop_get (createNew : Bool) :
    ∀ (files : List TrackedFile) (i : Nat) (h1 : i < files.length)
      (h2 : i < (create_backup_loop createNew files).length),
      (create_backup_loop createNew files).get ⟨i, h2⟩ =
        backupStep createNew (files.get ⟨i, h1⟩) := by
  intro files
  induction files with
  | nil => intro i h1 _; exact absurd h1 (by simp)
  | cons f fs ih =>
    intro i h1 h2
    cases i with
    | zero => rfl
    | succ j =>
      exact ih j (by simpa using h1) (by simpa [create_backup_loop] using h2)

/-- Claim C3: with `create_new_file` set, the backup loop truncates a tracked
file only after its copy succeeded.  For the `i`-th tracked file: if its copy
fails, its content is unchanged; and whenever its content changed at all, the
copy did not fail and the created artifact holds the original content. -/
theorem c3_truncate_only_after_copy (createNew : Bool) (files : List TrackedFile)
    (i : Nat) (h1 : i < files.length)
    (h2 : i < (create_backup_loop createNew files).length) :
    ((files.get ⟨i, h1⟩).copyFails = true →
      ((create_backup_loop createNew files).get ⟨i, h2⟩).1 =
        (files.get ⟨i, h1⟩).content) ∧
    (((create_backup_loop createNew files).get ⟨i, h2⟩).1 ≠
        (files.get ⟨i, h1⟩).content →
      (files.get ⟨i, h1⟩).copyFails = false ∧
      ((create_backup_loop createNew files).get ⟨i, h2⟩).2 =
        (files.get ⟨i, h1⟩).content) := by
  rw [create_backup_loop_get createNew files i h1 h2]
  rcases hf : files.get ⟨i, h1⟩ with ⟨content, copyFails⟩
  constructor
  · intro hcf
    simp at hcf
    cases content with
    | none => simp [backupStep]
    | some c => simp [backupStep, hcf]
  · intro hne
    cases content with
    | none => simp [backupStep] at hne
    | some c =>
      cases hcf : copyFails with
      | true => simp [backupStep, hcf] at hne
      | false =>
        refine ⟨rfl, ?_⟩
        simp [backupStep, hcf]

/-- Witness for C3: a single tracked file with content `"hello"` whose copy
raises; its content is unchanged. -/
theorem c3_witness :
    ((⟨some "hello", true⟩ : TrackedFile).copyFails = true) ∧
    ((create_backup_loop true [⟨some "hello", true⟩]).get ⟨0, by decide⟩).1 =
      some "hello" := by
  refine ⟨rfl, ?_⟩
  exact (c3_truncate_only_after_copy true [⟨some "hello", true⟩] 0 (by decide)
      (by decide)).1 rfl

/-- Claim C4 (amended): with a naming scheme other than `version`,
`timestamp` and `simple`, a backup run over a tracked-file list containing at
least one existing file exits fatally (`sys.exit(1)` inside
`get_backup_name`; `SystemExit` is not caught by the per-file `except`
handlers) with the backup directory still in its initial state — no file was
copied. -/
theorem c4_fatal_when_tracked_file_exists (scheme now : String)
    (files : List (String × Bool)) (dir : List String)
    (hs : scheme ≠ "version" ∧ scheme ≠ "timestamp" ∧ scheme ≠ "simple")
    (hex : ∃ p ∈ files, p.2 = true) :
    create_backup_run scheme now files dir = .error dir := by
  induction files generalizing dir with
  | nil => simp at hex
  | cons p rest ih =>
    rcases p with ⟨name, existsOnDisk⟩
    rw [create_backup_run]
    cases existsOnDisk with
    | true =>
      rw [if_pos rfl]
      have hn : get_backup_name scheme name now dir = none := by
        unfold get_backup_name
        rw [if_neg hs.1, if_neg hs.2.1, if_neg hs.2.2]
      rw [hn]
    | false =>
      rw [if_neg (by simp)]
      rcases hex with ⟨q, hq, hq2⟩
      rcases List.mem_cons.mp hq with rfl | hq'
      · simp at hq2
      · exact ih dir ⟨q, hq', hq2⟩

/-- Counterexample for C4 as stated: a configuration with the unknown scheme
`"bogus"` whose single tracked file does not exist on disk — the run
completes normally (no fatal exit), backing up zero files. -/
theorem c4_counterexample :
    create_backup_run "bogus" "20240101-000000" [("note.txt", false)] [] =
      .ok (0, []) := by decide

/-- Witness for C4 (amended). -/
theorem c4_witness :
    (("bogus" : String) ≠ "version" ∧ ("bogus" : String) ≠ "timestamp" ∧
      ("bogus" : String) ≠ "simple") ∧
    (∃ p ∈ [(("note.txt" : String), true)], p.2 = true) ∧
    create_backup_run "bogus" "20240101-000000" [("note.txt", true)] ["keep.bin"] =
      .error ["keep.bin"] := by
  refine ⟨⟨by decide, by decide, by decide⟩, ⟨("note.txt", true), by simp, rfl⟩, ?_⟩
  exact c4_fatal_when_tracked_file_exists "bogus" "20240101-000000"
    [("note.txt", true)] ["keep.bin"] ⟨by decide, by decide, by decide⟩
    ⟨("note.txt", true), by simp, rfl⟩

/-- Claim C5 (the code violates it): for the tracked file `a[0].txt` — a stem
with glob-special characters, which the source passes unescaped to
`backup_dir.glob` — with the existing artifact `a[0]-v1.txt`, the version
scheme's glob `a[0]-v*.txt` does not match that artifact (the class `[0]`
matches only the character `0`), so the scan sees no versions and the
computed next name equals the existing artifact's name: a collision. -/
theorem c5_collision_failing_input :
    get_backup_name "version" "a[0].txt" "x" ["a[0]-v1.txt"] = some "a[0]-v1.txt" ∧
    "a[0]-v1.txt" ∈ ["a[0]-v1.txt"] ∧
    versionsOf "a[0]" ".txt" ["a[0]-v1.txt"] = [] := by
  refine ⟨by decide, by decide, by decide⟩

theorem ancestorExcluded_of_take (git : List String) (parts : List String) (k : Nat)
    (h1 : 1 ≤ k) (h2 : k ≤ parts.length - 1)
    (h : should_exclude_dir git (parts.take k) = true) :
    ancestorExcluded git parts = true := by
  unfold ancestorExcluded
  rw [List.any_eq_true]
  refine ⟨k - 1, ?_, ?_⟩
  · rw [List.mem_range]
    omega
  · have hk : k - 1 + 1 = k := by omega
    rw [hk]
    exact h

theorem not_mem_detect_of_ancestorExcluded (git : List String) (strategy : String)
    (maxAge : Nat) (files : List FsFile) (f : FsFile)
    (h : ancestorExcluded git f.parts = true) :
    f ∉ detect_files git strategy maxAge files := by
  intro hmem
  unfold detect_files at hmem
  rw [mem_sortLe] at hmem
  have hp := List.of_mem_filter hmem
  simp [h] at hp

/-- Claim C6: a file with a strict ancestor directory (below the root)
matching an exclusion rule is never returned by detection, for every
strategy; and the spec scenario: a root containing `src/app.py`,
`node_modules/lib.js` and `.git/HEAD` under the source strategy yields
exactly `["src/app.py"]`. -/
theorem c6_excluded_ancestor_never_returned :
    (∀ (git : List String) (strategy : String) (maxAge : Nat) (files : List FsFile)
      (f : FsFile) (k : Nat), 1 ≤ k → k ≤ f.parts.length - 1 →
      should_exclude_dir git (f.parts.take k) = true →
      f ∉ detect_files git strategy maxAge files) ∧
    detect_files [] "source" 30
        [⟨["src", "app.py"], 0, true⟩, ⟨["node_modules", "lib.js"], 0, true⟩,
         ⟨[".git", "HEAD"], 0, true⟩] = [⟨["src", "app.py"], 0, true⟩] := by
  refine ⟨?_, by decide⟩
  intro git strategy maxAge files f k hk1 hk2 hx
  exact not_mem_detect_of_ancestorExcluded git strategy maxAge files f
    (ancestorExcluded_of_take git f.parts k hk1 hk2 hx)

/-- Witness for C6: `node_modules/lib.js` has the excluded ancestor
`node_modules` and is not detected. -/
theorem c6_witness :
    (1 ≤ 1 ∧ 1 ≤ (["node_modules", "lib.js"] : List String).length - 1 ∧
      should_exclude_dir [] ((["node_modules", "lib.js"] : List String).take 1) = true) ∧
    (⟨["node_modules", "lib.js"], 0, true⟩ : FsFile) ∉
      detect_files [] "source" 30
        [⟨["src", "app.py"], 0, true⟩, ⟨["node_modules", "lib.js"], 0, true⟩,
         ⟨[".git", "HEAD"], 0, true⟩] := by
  refine ⟨⟨by decide, by decide, by decide⟩, ?_⟩
  exact c6_excluded_ancestor_never_returned.1 [] "source" 30
    [⟨["src", "app.py"], 0, true⟩, ⟨["node_modules", "lib.js"], 0, true⟩,
     ⟨[".git", "HEAD"], 0, true⟩] ⟨["node_modules", "lib.js"], 0, true⟩ 1
    (by decide) (by decide) (by decide)

/-- Claim C7: `!`-prefixed (negation) ignore patterns are parsed but never
applied: `is_ignored` gives the same verdict with and without them, for every
pattern list and every path (including paths not under the root). -/
theorem c7_negation_patterns_never_applied (patterns : List String)
    (p : Option (List String × Bool)) :
    is_ignored_at patterns p =
      is_ignored_at (patterns.filter (fun q => !startsWithBang q)) p := by
  cases p with
  | none => rfl
  | some pr =>
    rcases pr with ⟨parts, isDir⟩
    show is_ignored patterns parts isDir =
      is_ignored (patterns.filter (fun q => !startsWithBang q)) parts isDir
    unfold is_ignored
    induction patterns with
    | nil => rfl
    | cons q qs ih =>
      rw [List.any_cons, List.filter_cons]
      by_cases hq : startsWithBang q = true
      · have hzero : gitignoreHit parts isDir q = false := by
          unfold gitignoreHit
          rw [if_pos hq]
        rw [hzero]
        simp only [hq, Bool.not_true, Bool.false_eq_true, if_false]
        simpa using ih
      · have hq' : startsWithBang q = false := by
          cases hqb : startsWithBang q
          · rfl
          · exact absurd hqb hq
        simp only [hq', Bool.not_false, if_true]
        rw [List.any_cons]
        rw [ih]

/-- Claim C8: round trip.  If a tracked file `f` has content `c` at backup
time, the copy into the backup directory creates an artifact with exactly
content `c`, and restoring that artifact (with the selection rule picking
`f`, overwrite confirmed) leaves `f` with content `c` again — byte-identical
to the content at backup time. -/
theorem c8_backup_restore_roundtrip (work backup : List (String × String))
    (files : List String) (f bname c : String)
    (hf : lookupStore work f = some c)
    (ht : restoreTarget files bname = some f) :
    copy2 f bname work backup = some (setStore backup bname c) ∧
    ∃ work2,
      restore_backup_model files bname true (setStore backup bname c) work =
        some work2 ∧
      lookupStore work2 f = some c := by
  constructor
  · unfold copy2
    rw [hf]
    rfl
  · refine ⟨setStore work f c, ?_, ?_⟩
    · unfold restore_backup_model
      have h1 : lookupStore (setStore backup bname c) bname = some c := by
        unfold lookupStore setStore
        simp [List.find?_cons]
      rw [h1, ht]
      simp
    · unfold lookupStore setStore
      simp [List.find?_cons]

/-- Witness for C8. -/
theorem c8_witness :
    (lookupStore [("note.txt", "hello")] "note.txt" = some "hello" ∧
      restoreTarget ["note.txt"] "note-v1.txt" = some "note.txt") ∧
    ∃ work2,
      restore_backup_model ["note.txt"] "note-v1.txt" true
          (setStore [] "note-v1.txt" "hello") [("note.txt", "hello")] = some work2 ∧
      lookupStore work2 "note.txt" = some "hello" := by
  refine ⟨⟨by decide, by decide⟩, ?_⟩
  exact (c8_backup_restore_roundtrip [("note.txt", "hello")] [] ["note.txt"]
      "note.txt" "note-v1.txt" "hello" (by decide) (by decide)).2

/-- Claim C9: every directory whose name begins with `.` is excluded —
`should_exclude_dir` is true for it whatever the ignore patterns — and hence
no file having such a directory as a strict ancestor below the root is ever
detected, under any strategy. -/
theorem c9_hidden_directories_always_excluded :
    (∀ (git : List String) (parts : List String),
      startsWithDot (parts.getLast?.getD "") = true →
      should_exclude_dir git parts = true) ∧
    (∀ (git : List String) (strategy : String) (maxAge : Nat) (files : List FsFile)
      (f : FsFile) (k : Nat), 1 ≤ k → k ≤ f.parts.length - 1 →
      startsWithDot (((f.parts.take k).getLast?).getD "") = true →
      f ∉ detect_files git strategy maxAge files) := by
  have hdir : ∀ (git : List String) (parts : List String),
      startsWithDot (parts.getLast?.getD "") = true →
      should_exclude_dir git parts = true := by
    intro git parts hdot
    unfold should_exclude_dir
    rw [Bool.or_eq_true]
    left
    rw [List.any_eq_true]
    refine ⟨".git", by decide, ?_⟩
    rw [hdot, Bool.or_true, Bool.and_true]
    decide
  refine ⟨hdir, ?_⟩
  intro git strategy maxAge files f k hk1 hk2 hdot
  exact not_mem_detect_of_ancestorExcluded git strategy maxAge files f
    (ancestorExcluded_of_take git f.parts k hk1 hk2 (hdir git _ hdot))

/-- Witness for C9: the arbitrary hidden directory `.mydata` (not named by
any default-exclude pattern) is excluded, and a file below it is not
detected. -/
theorem c9_witness :
    startsWithDot ((([".mydata"] : List String)).getLast?.getD "") = true ∧
    should_exclude_dir [] [".mydata"] = true ∧
    (⟨[".mydata", "cache.txt"], 0, true⟩ : FsFile) ∉
      detect_files [] "all" 30 [⟨[".mydata", "cache.txt"], 0, true⟩] := by
  refine ⟨by decide, ?_, ?_⟩
  · exact c9_hidden_directories_always_excluded.1 [] [".mydata"] (by decide)
  · exact c9_hidden_directories_always_excluded.2 [] "all" 30
      [⟨[".mydata", "cache.txt"], 0, true⟩] ⟨[".mydata", "cache.txt"], 0, true⟩ 1
      (by decide) (by decide) (by decide)

/-- Claim C10: restore target selection is substring-based: the loop in
`restore_backup` returns the first tracked file (in configuration order)
whose stem occurs as a substring of the artifact name; consequently for
tracked files `no.txt`, `note.txt`, the artifact `note-v1.txt` that the
version scheme produced for `note.txt` is restored over `no.txt` — a tracked
file other than the one that produced it. -/
theorem c10_restore_target_substring_first_match :
    (∀ (files : List String) (bname : String),
      restoreTarget files bname = restoreTargetSpec files bname) ∧
    restoreTarget ["no.txt", "note.txt"] "note-v1.txt" = some "no.txt" ∧
    get_backup_name "version" "note.txt" "x" [] = some "note-v1.txt" ∧
    ("no.txt" : String) ≠ "note.txt" := by
  refine ⟨?_, by decide, by decide, by decide⟩
  intro files bname
  induction files with
  | nil => rfl
  | cons t ts ih =>
    rw [restoreTarget]
    unfold restoreTargetSpec
    by_cases hs : subStr (stemL t.data) bname.data = true
    · rw [if_pos hs, List.find?_cons_of_pos]
      exact hs
    · have hs' : subStr (stemL t.data) bname.data = false := by
        cases hb : subStr (stemL t.data) bname.data
        · rfl
        · exact absurd hb hs
      rw [if_neg (by rw [hs']; simp), List.find?_cons_of_neg]
      · exact ih
      · simp [hs']
